import Mathlib

/-!
# Verification of `metazap` (`src/main.rs`)

A shallow embedding of the `metazap` command-line program: a directory walk
filters regular files whose extension is one of `png`, `jpg`, `jpeg`
(exact byte comparison), and each candidate file is dispatched through
path planning, an optional backup copy, and a decode/encode transcode with
an optional PNG recompression pass, while three counters
(`processed`, `skipped`, `errors`) are accumulated and a summary line is
printed at the end.

Modelling conventions:
* Paths are a directory-component list plus a base (file-name) component.
* The opaque external operations (image decode, encode, `fs::copy`,
  PNG recompression `optimize_from_memory`, `fs::read`/`fs::write`,
  `create_dir_all`) are modelled by boolean success oracles; the mutating
  filesystem calls that the program attempts are recorded in an `FsOp`
  trace.  Read-only calls (`ImageReader::open`, `fs::read`) mutate
  nothing and are not traced.
* `println!` output is collected as a list of strings, one entry per
  `println!` call (`eprintln!` goes to stderr and is not part of it).
* The order in which `rayon`'s `par_bridge().for_each` schedules files is
  unspecified; the model folds in list order and permutation invariance of
  the counters is proved separately.
-/

/-- A filesystem path: directory components plus the final (file-name)
component.  `Path::file_name` of the Rust code is the `base` field. -/
structure RPath where
  dir : List String
  base : String
deriving DecidableEq, Repr

/-- Rendering used by `Path::display` in the printed lines. -/
def RPath.display (p : RPath) : String :=
  String.intercalate "/" (p.dir ++ [p.base])

/-- `out_dir.join(file_name)`: the joined path has the original path's
components as directories and `name` as its base. -/
def RPath.join (p : RPath) (name : String) : RPath :=
  ⟨p.dir ++ [p.base], name⟩

/-- Split a file name at its LAST dot: `some (stem, ext)` when a dot
exists, preferring the rightmost one; `none` when the name has no dot. -/
def splitLastDot : List Char → Option (List Char × List Char)
  | [] => none
  | c :: cs =>
    match splitLastDot cs with
    | some (st, ex) => some (c :: st, ex)
    | none => if c = '.' then some ([], cs) else none

/-- Rust `Path::extension` on a file name: `None` when there is no
embedded dot or when the name begins with a dot and has no other dot
(stem empty); otherwise the portion after the final dot. -/
def rustSplitExt (s : String) : Option (String × String) :=
  match splitLastDot s.data with
  | some (st, ex) => if st = [] then none else some (⟨st⟩, ⟨ex⟩)
  | none => none

/-- `Path::extension().and_then(|s| s.to_str())` of the model
(all modelled names are UTF-8, so `to_str` always succeeds). -/
def extOf (s : String) : Option String :=
  (rustSplitExt s).map (fun se => se.2)

/-- Rust `PathBuf::set_extension(newExt)` on a file base name: the stem
(part before the final dot, or the whole name when dotless) followed by a
dot and the new extension. -/
def setExtBase (s newExt : String) : String :=
  match rustSplitExt s with
  | some (st, _) => st ++ "." ++ newExt
  | none => s ++ "." ++ newExt

/-- ASCII lowercase map, modelling `str::to_lowercase` on the ASCII
extension strings the program compares. -/
def strToLower (s : String) : String := ⟨s.data.map Char.toLower⟩

/-- A directory entry yielded by the `WalkDir` traversal. -/
structure DirEntry where
  path : RPath
  isFile : Bool
deriving DecidableEq, Repr

/-- `let extensions: Vec<&str> = vec!["png", "jpg", "jpeg"];` -/
def extensionsList : List String := ["png", "jpg", "jpeg"]

/-- The walker filter (`main.rs` lines 60–65): a directory entry is kept
iff it is a regular file and its extension compares byte-equal to one of
the recognised extensions. -/
def isCandidate (e : DirEntry) : Bool :=
  e.isFile && extensionsList.any (fun ext => extOf e.path.base == some ext)

/-- The mutating filesystem calls the program can attempt. -/
inductive FsOp
  /-- `fs::copy(src, dst)` (the backup step). -/
  | copy (src dst : RPath)
  /-- `img.save(dest)` (the encode step). -/
  | save (dst : RPath)
  /-- `fs::write(dest, optimized)` (the PNG recompression rewrite). -/
  | write (dst : RPath)
  /-- `fs::create_dir_all(dir)` (output-directory setup). -/
  | createDirAll (d : RPath)
deriving DecidableEq, Repr

/-- The path an `FsOp` writes to (its only potential mutation target). -/
def FsOp.target : FsOp → RPath
  | .copy _ dst => dst
  | .save dst => dst
  | .write dst => dst
  | .createDirAll d => d

/-- Success oracle for the opaque steps inside `process_image`. -/
structure ImgOracle where
  /-- `ImageReader::open(src)?.decode()?` succeeds. -/
  decodeOk : Bool
  /-- `img.save(dest)?` succeeds. -/
  saveOk : Bool
  /-- `fs::read(dest)?` succeeds. -/
  readOk : Bool
  /-- `optimize_from_memory(&data, &opts)?` succeeds. -/
  optOk : Bool
  /-- `fs::write(dest, &optimized)?` succeeds. -/
  writeOk : Bool
deriving DecidableEq, Repr

/-- Result of one `process_image` call: overall success, the mutating
calls attempted, and (ghost) whether the optimize branch was entered. -/
structure ImgResult where
  ok : Bool
  ops : List FsOp
  optStep : Bool
deriving DecidableEq, Repr

/-- `fn process_image(src, dest, ext, optimize)` (`main.rs` lines 134–146):
decode the source, save to `dest`, and when `optimize` is set and
`ext.to_lowercase() == "png"` re-read the written bytes, recompress them
and overwrite `dest`. -/
def process_image (o : ImgOracle) (_src dest : RPath) (ext : String)
    (optimize : Bool) : ImgResult :=
  if o.decodeOk = false then ⟨false, [], false⟩
  else if o.saveOk = false then ⟨false, [FsOp.save dest], false⟩
  else if optimize && (strToLower ext == "png") then
    if o.readOk = false then ⟨false, [FsOp.save dest], true⟩
    else if o.optOk = false then ⟨false, [FsOp.save dest], true⟩
    else ⟨o.writeOk, [FsOp.save dest, FsOp.write dest], true⟩
  else ⟨true, [FsOp.save dest], false⟩

/-- The parsed command-line arguments (`struct Args`). -/
structure Args where
  input : RPath
  output : Option RPath
  recursive : Bool
  dryRun : Bool
  optimize : Bool
  backup : Bool
deriving DecidableEq, Repr

/-- Per-file success oracle: the backup `fs::copy` plus the transcode
steps. -/
structure FileOracle where
  copyOk : Bool
  img : ImgOracle
deriving DecidableEq, Repr

/-- The backup-path derivation (`main.rs` lines 81–85): only when the
source has a determinable extension, `set_extension("bak.<ext>")` inserts
a `bak` segment before the original extension. -/
def deriveBackupPath (src : RPath) : Option RPath :=
  match extOf src.base with
  | some e => some { src with base := setExtBase src.base ("bak." ++ e) }
  | none => none

/-- Everything one `for_each` body invocation produces: the counter
increments (`fetch_add(1)` on each atomic), the attempted mutating
filesystem calls, the stdout lines, and ghost observations of the values
the body computed (destination, in-place flag, backup path) and of which
stages ran. -/
structure StepResult where
  procInc : Nat
  skipInc : Nat
  errInc : Nat
  ops : List FsOp
  lines : List String
  dest : RPath
  isInplace : Bool
  backupPath : Option RPath
  transcodeCalled : Bool
  optStep : Bool
deriving DecidableEq, Repr

/-- The `for_each` closure body (`main.rs` lines 67–118) on one candidate
file.  The walker filter guarantees every dispatched path has a UTF-8
extension in `extensionsList`, so the `unwrap` on the extension is
modelled by `Option.getD` (the theorems about non-candidate behaviour are
stated on the filter itself). -/
def dispatch (a : Args) (o : FileOracle) (src : RPath) : StepResult :=
  let ext := (extOf src.base).getD ""
  let isInplace := a.output.isNone
  let dest := match a.output with
    | some outDir => outDir.join src.base
    | none => src
  let backupPath := if isInplace && a.backup then deriveBackupPath src else none
  let bk : List String × List FsOp × Bool :=
    match backupPath with
    | some bp =>
      if !a.dryRun then
        if !o.copyOk then ([], [FsOp.copy src bp], true)
        else (["  └─ Backed up to: " ++ bp.display], [FsOp.copy src bp], false)
      else
        (["  └─ Would backup to: " ++ bp.display], [], false)
    | none => ([], [], false)
  if bk.2.2 then
    { procInc := 0, skipInc := 0, errInc := 1, ops := bk.2.1, lines := bk.1,
      dest := dest, isInplace := isInplace, backupPath := backupPath,
      transcodeCalled := false, optStep := false }
  else if a.dryRun then
    { procInc := 1, skipInc := 0, errInc := 0, ops := bk.2.1,
      lines := bk.1 ++ ["Would process: " ++ src.display ++ " -> " ++ dest.display],
      dest := dest, isInplace := isInplace, backupPath := backupPath,
      transcodeCalled := false, optStep := false }
  else
    let r := process_image o.img src dest ext a.optimize
    if r.ok then
      { procInc := 1, skipInc := 0, errInc := 0, ops := bk.2.1 ++ r.ops,
        lines := bk.1 ++ ["Zapped: " ++ src.display ++ " -> " ++ dest.display],
        dest := dest, isInplace := isInplace, backupPath := backupPath,
        transcodeCalled := true, optStep := r.optStep }
    else
      { procInc := 0, skipInc := 0, errInc := 1, ops := bk.2.1 ++ r.ops,
        lines := bk.1,
        dest := dest, isInplace := isInplace, backupPath := backupPath,
        transcodeCalled := true, optStep := r.optStep }

/-- The final counter values of a run (`RunSummary`). -/
structure RunSummary where
  processed : Nat
  skipped : Nat
  errored : Nat
deriving DecidableEq, Repr

/-- `println!("\nSummary: {} processed, {} skipped, {} errors", ...)`. -/
def summaryLine (p s e : Nat) : String :=
  "\nSummary: " ++ toString p ++ " processed, " ++ toString s
    ++ " skipped, " ++ toString e ++ " errors"

/-- The observable outcome of one whole invocation of `main`. -/
structure RunOut where
  summary : RunSummary
  lines : List String
  ops : List FsOp
  exitCode : Nat
deriving DecidableEq, Repr

/-- The per-candidate step results of a run: the walker filter applied to
the traversal's entries, each surviving entry dispatched with its own
oracle. -/
def runSteps (a : Args) (es : List (DirEntry × FileOracle)) : List StepResult :=
  (es.filter (fun pr => isCandidate pr.1)).map (fun pr => dispatch a pr.2 pr.1.path)

/-- `fn main` (`main.rs` lines 40–132): bail when the input directory does
not exist; create the output directory when it is missing and the run is
not a dry run (bailing on failure); dispatch every candidate the walker
yields; print the summary; exit 1 when the error counter is positive and
0 otherwise.  `inputExists`, `outputExists` and `mkdirOk` are the oracles
for the three filesystem queries of the setup phase; a bailing `main`
returns `Err`, which the Rust runtime turns into exit code 1. -/
def mainRun (a : Args) (inputExists outputExists mkdirOk : Bool)
    (es : List (DirEntry × FileOracle)) : RunOut :=
  if !inputExists then
    { summary := ⟨0, 0, 0⟩, lines := [], ops := [], exitCode := 1 }
  else
    let outDir := a.output.getD a.input
    if !outputExists && !a.dryRun && !mkdirOk then
      { summary := ⟨0, 0, 0⟩, lines := [],
        ops := [FsOp.createDirAll outDir], exitCode := 1 }
    else
      let mkOps := if !outputExists && !a.dryRun then [FsOp.createDirAll outDir] else []
      let steps := runSteps a es
      let p := (steps.map (fun st => st.procInc)).sum
      let s := (steps.map (fun st => st.skipInc)).sum
      let er := (steps.map (fun st => st.errInc)).sum
      { summary := ⟨p, s, er⟩,
        lines := (steps.map (fun st => st.lines)).flatten ++ [summaryLine p s er],
        ops := mkOps ++ (steps.map (fun st => st.ops)).flatten,
        exitCode := if er > 0 then 1 else 0 }

example : extOf "photo.png" = some "png" := by decide
example : extOf "photo" = none := by decide
example : extOf ".bashrc" = none := by decide
example : extOf "a.b.c" = some "c" := by decide
example : setExtBase "photo.png" "bak.png" = "photo.bak.png" := by decide
example : isCandidate ⟨⟨[], "c.JPG"⟩, true⟩ = false := by decide
example : isCandidate ⟨⟨[], "a.png"⟩, true⟩ = true := by decide
example : isCandidate ⟨⟨[], "a.png"⟩, false⟩ = false := by decide

/-! ## Helper lemmas -/

theorem dispatch_counts (a : Args) (o : FileOracle) (src : RPath) :
    (dispatch a o src).procInc + (dispatch a o src).skipInc
      + (dispatch a o src).errInc = 1
      ∧ (dispatch a o src).skipInc = 0 := by
  unfold dispatch
  repeat' split
  all_goals (try simp_all)
  all_goals (repeat' split)
  all_goals (try simp_all)
  all_goals (repeat' split)
  all_goals (try simp_all)

theorem dispatch_dest (a : Args) (o : FileOracle) (src : RPath) :
    (dispatch a o src).dest
      = match a.output with
        | some outDir => outDir.join src.base
        | none => src := by
  unfold dispatch
  repeat' split
  all_goals (try simp_all)
  all_goals (repeat' split)
  all_goals (try simp_all)
  all_goals (repeat' split)
  all_goals (try simp_all)

theorem dispatch_isInplace (a : Args) (o : FileOracle) (src : RPath) :
    (dispatch a o src).isInplace = a.output.isNone := by
  unfold dispatch
  repeat' split
  all_goals (try simp_all)
  all_goals (repeat' split)
  all_goals (try simp_all)
  all_goals (repeat' split)
  all_goals (try simp_all)

theorem dispatch_backupPath (a : Args) (o : FileOracle) (src : RPath) :
    (dispatch a o src).backupPath
      = if a.output.isNone && a.backup then deriveBackupPath src else none := by
  unfold dispatch
  repeat' split
  all_goals (try simp_all)
  all_goals (repeat' split)
  all_goals (try simp_all)
  all_goals (repeat' split)
  all_goals (try simp_all)

theorem splitLastDot_eq (l st ex : List Char) (h : splitLastDot l = some (st, ex)) :
    l = st ++ '.' :: ex := by
  induction l generalizing st ex with
  | nil => simp [splitLastDot] at h
  | cons c cs ih =>
    rw [splitLastDot] at h
    cases hcs : splitLastDot cs with
    | some p =>
      obtain ⟨st2, ex2⟩ := p
      rw [hcs] at h
      simp only [Option.some.injEq, Prod.mk.injEq] at h
      obtain ⟨h1, h2⟩ := h
      rw [← h1, ← h2]
      have hrec := ih st2 ex2 hcs
      rw [List.cons_append, ← hrec]
    | none =>
      rw [hcs] at h
      split at h
      all_goals simp_all

theorem setExtBase_bak_ne (s e : String) (h : extOf s = some e) :
    setExtBase s ("bak." ++ e) ≠ s := by
  intro heq
  unfold extOf rustSplitExt at h
  unfold setExtBase rustSplitExt at heq
  cases hsp : splitLastDot s.data with
  | none => rw [hsp] at h; simp at h
  | some p =>
    obtain ⟨st, ex⟩ := p
    rw [hsp] at h
    rw [hsp] at heq
    by_cases hst : st = []
    · simp [hst] at h
    · simp only [hst, reduceIte, Option.map_some', Option.some.injEq] at h
      subst h
      simp only [hst, reduceIte] at heq
      have hd := congrArg (fun t => t.data.length) heq
      have hsd := splitLastDot_eq s.data st ex hsp
      simp only [String.data_append, List.length_append, hsd] at hd
      have l1 : ".".data.length = 1 := by decide
      have l2 : "bak.".data.length = 4 := by decide
      simp only [l1, l2] at hd
      simp at hd
      omega

theorem sum_counts (l : List StepResult)
    (h1 : ∀ st ∈ l, st.procInc + st.skipInc + st.errInc = 1) :
    (l.map (fun st => st.procInc)).sum + (l.map (fun st => st.skipInc)).sum
      + (l.map (fun st => st.errInc)).sum = l.length := by
  induction l with
  | nil => simp
  | cons x xs ih =>
    have hx := h1 x (by simp)
    have hxs := ih (fun st hst => h1 st (by simp [hst]))
    simp only [List.map_cons, List.sum_cons, List.length_cons]
    omega

theorem runSteps_append (a : Args) (xs ys : List (DirEntry × FileOracle)) :
    runSteps a (xs ++ ys) = runSteps a xs ++ runSteps a ys := by
  unfold runSteps
  rw [List.filter_append, List.map_append]

theorem mainRun_ok (a : Args) (outputExists mkdirOk : Bool)
    (es : List (DirEntry × FileOracle))
    (hok : (!outputExists && !a.dryRun && !mkdirOk) = false) :
    mainRun a true outputExists mkdirOk es =
      { summary := ⟨((runSteps a es).map (fun st => st.procInc)).sum,
                    ((runSteps a es).map (fun st => st.skipInc)).sum,
                    ((runSteps a es).map (fun st => st.errInc)).sum⟩,
        lines := ((runSteps a es).map (fun st => st.lines)).flatten
          ++ [summaryLine ((runSteps a es).map (fun st => st.procInc)).sum
                ((runSteps a es).map (fun st => st.skipInc)).sum
                ((runSteps a es).map (fun st => st.errInc)).sum],
        ops := (if !outputExists && !a.dryRun then [FsOp.createDirAll (a.output.getD a.input)] else [])
          ++ ((runSteps a es).map (fun st => st.ops)).flatten,
        exitCode := if ((runSteps a es).map (fun st => st.errInc)).sum > 0 then 1 else 0 } := by
  unfold mainRun
  simp [hok]

/-- `xs` leads `ys`: `ys` begins with the characters of `xs`. -/
def leadsChars : List Char → List Char → Bool
  | [], _ => true
  | _ :: _, [] => false
  | a :: as, b :: bs => a == b && leadsChars as bs

/-- A stdout entry is the summary line exactly when it begins with the
summary format's fixed head. -/
def isSummaryLine (l : String) : Bool := leadsChars "\nSummary: ".data l.data

theorem leadsChars_head_ne (a b : Char) (as bs : List Char)
    (hne : (a == b) = false) : leadsChars (a :: as) (b :: bs) = false := by
  simp [leadsChars, hne]

theorem leadsChars_append_self (xs ys : List Char) :
    leadsChars xs (xs ++ ys) = true := by
  induction xs with
  | nil => rfl
  | cons c cs ih => simp [leadsChars, ih]

theorem isSummaryLine_summaryLine (p s e : Nat) :
    isSummaryLine (summaryLine p s e) = true := by
  unfold summaryLine isSummaryLine
  have hd : ("\nSummary: " ++ toString p ++ " processed, " ++ toString s
      ++ " skipped, " ++ toString e ++ " errors").data
      = "\nSummary: ".data ++ ((toString p).data ++ " processed, ".data
        ++ (toString s).data ++ " skipped, ".data ++ (toString e).data
        ++ " errors".data) := by
    simp [String.data_append]
  rw [hd]
  exact leadsChars_append_self _ _

theorem not_summary_of_data (l : String) (c : Char) (cs : List Char)
    (hdata : l.data = c :: cs) (hne : ('\n' == c) = false) :
    isSummaryLine l = false := by
  unfold isSummaryLine
  rw [hdata]
  have hpre : "\nSummary: ".data = '\n' :: "Summary: ".data := by decide
  rw [hpre]
  exact leadsChars_head_ne _ _ _ _ hne

theorem prefix_line_not_summary (pre x : String) (c : Char) (cs : List Char)
    (hpre : pre.data = c :: cs) (hne : ('\n' == c) = false) :
    isSummaryLine (pre ++ x) = false := by
  apply not_summary_of_data _ c (cs ++ x.data)
  · rw [String.data_append, hpre, List.cons_append]
  · exact hne

theorem zapped_not_summary (s : String) :
    isSummaryLine ("Zapped: " ++ s) = false :=
  prefix_line_not_summary "Zapped: " s 'Z' "apped: ".data (by decide) (by decide)

theorem would_process_not_summary (s : String) :
    isSummaryLine ("Would process: " ++ s) = false :=
  prefix_line_not_summary "Would process: " s 'W' "ould process: ".data
    (by decide) (by decide)

theorem backed_up_not_summary (s : String) :
    isSummaryLine ("  └─ Backed up to: " ++ s) = false :=
  prefix_line_not_summary "  └─ Backed up to: " s ' ' " └─ Backed up to: ".data
    (by decide) (by decide)

theorem would_backup_not_summary (s : String) :
    isSummaryLine ("  └─ Would backup to: " ++ s) = false :=
  prefix_line_not_summary "  └─ Would backup to: " s ' ' " └─ Would backup to: ".data
    (by decide) (by decide)

theorem dispatch_lines_forms (a : Args) (o : FileOracle) (src : RPath) :
    ((dispatch a o src).lines).all (fun l => !(isSummaryLine l)) = true := by
  unfold dispatch
  repeat' split
  all_goals (try simp_all [String.append_assoc, zapped_not_summary, would_process_not_summary,
    backed_up_not_summary, would_backup_not_summary])
  all_goals (repeat' split)
  all_goals (try simp_all [String.append_assoc, zapped_not_summary, would_process_not_summary,
    backed_up_not_summary, would_backup_not_summary])
  all_goals (repeat' split)
  all_goals (try simp_all [String.append_assoc, zapped_not_summary, would_process_not_summary,
    backed_up_not_summary, would_backup_not_summary])

theorem dispatch_lines_not_summary (a : Args) (o : FileOracle) (src : RPath)
    (l : String) (hl : l ∈ (dispatch a o src).lines) :
    isSummaryLine l = false := by
  have h := dispatch_lines_forms a o src
  rw [List.all_eq_true] at h
  simpa using h l hl

/-! ## Concrete fixtures used by the witnesses -/

/-- An all-success per-file oracle. -/
def oAll : FileOracle := ⟨true, ⟨true, true, true, true, true⟩⟩

/-- A per-file oracle whose backup `fs::copy` fails. -/
def oCopyFail : FileOracle := ⟨false, ⟨true, true, true, true, true⟩⟩

/-- A sample candidate source path `in/a.png`. -/
def srcA : RPath := ⟨["in"], "a.png"⟩

/-- The directory entry for `srcA`. -/
def entryA : DirEntry := ⟨srcA, true⟩

/-- An in-place configuration (no output directory, all flags off). -/
def argsInPlace : Args := ⟨⟨[], "in"⟩, none, true, false, false, false⟩

/-! ## Claims -/

/-- C1: every CandidateFile the discovery filter yields contributes
exactly one increment to exactly one of the three RunSummary counters:
each dispatch adds exactly 1 across `processed`, `skipped`, `errored`,
and after a run with a successful setup phase the three final counters
sum to the number of candidates that passed the filter. -/
theorem C1_counters_partition (a : Args) (o : FileOracle) (src : RPath)
    (outputExists mkdirOk : Bool) (es : List (DirEntry × FileOracle))
    (hok : (!outputExists && !a.dryRun && !mkdirOk) = false) :
    (dispatch a o src).procInc + (dispatch a o src).skipInc
        + (dispatch a o src).errInc = 1
    ∧ (mainRun a true outputExists mkdirOk es).summary.processed
        + (mainRun a true outputExists mkdirOk es).summary.skipped
        + (mainRun a true outputExists mkdirOk es).summary.errored
      = (es.filter (fun pr => isCandidate pr.1)).length := by
  refine ⟨(dispatch_counts a o src).1, ?_⟩
  rw [mainRun_ok a outputExists mkdirOk es hok]
  have hall : ∀ st ∈ runSteps a es, st.procInc + st.skipInc + st.errInc = 1 := by
    intro st hst
    unfold runSteps at hst
    rw [List.mem_map] at hst
    obtain ⟨pr, _, hpr⟩ := hst
    rw [← hpr]
    exact (dispatch_counts a pr.2 pr.1.path).1
  have hsum := sum_counts (runSteps a es) hall
  simpa [runSteps] using hsum

/-- C1 witness: a one-candidate dry run counts exactly that one file. -/
theorem C1_witness :
    (dispatch argsInPlace oAll srcA).procInc + (dispatch argsInPlace oAll srcA).skipInc
        + (dispatch argsInPlace oAll srcA).errInc = 1
    ∧ (mainRun argsInPlace true true true [(entryA, oAll)]).summary.processed
        + (mainRun argsInPlace true true true [(entryA, oAll)]).summary.skipped
        + (mainRun argsInPlace true true true [(entryA, oAll)]).summary.errored
      = ([(entryA, oAll)].filter (fun pr => isCandidate pr.1)).length :=
  C1_counters_partition argsInPlace oAll srcA true true [(entryA, oAll)] (by decide)

/-- C10: the Skipped outcome is unreachable: no dispatch ever increments
the skipped counter, every dispatch ends as Processed or Errored, and
every run's final skipped count is zero. -/
theorem C10_skipped_unreachable (a : Args) (o : FileOracle) (src : RPath)
    (inputExists outputExists mkdirOk : Bool)
    (es : List (DirEntry × FileOracle)) :
    (dispatch a o src).skipInc = 0
    ∧ (dispatch a o src).procInc + (dispatch a o src).errInc = 1
    ∧ (mainRun a inputExists outputExists mkdirOk es).summary.skipped = 0 := by
  have h := dispatch_counts a o src
  refine ⟨h.2, by omega, ?_⟩
  unfold mainRun
  split
  · rfl
  · split
    · rfl
    · dsimp only
      apply List.sum_eq_zero
      intro x hx
      rw [List.mem_map] at hx
      obtain ⟨st, hst, hx⟩ := hx
      unfold runSteps at hst
      rw [List.mem_map] at hst
      obtain ⟨pr, _, hpr⟩ := hst
      rw [← hx, ← hpr]
      exact (dispatch_counts a pr.2 pr.1.path).2

/-- C5: with an output directory configured the destination is that
directory joined with the source's base name (subdirectory structure
flattened) and the run is not in-place; with no output directory the
destination is the source path itself and the run is in-place. -/
theorem C5_destination_planning (a : Args) (o : FileOracle) (src : RPath) :
    (∀ od, a.output = some od →
      (dispatch a o src).dest = od.join src.base
        ∧ (dispatch a o src).isInplace = false)
    ∧ (a.output = none →
      (dispatch a o src).dest = src ∧ (dispatch a o src).isInplace = true) := by
  constructor
  · intro od hod
    rw [dispatch_dest, dispatch_isInplace, hod]
    exact ⟨rfl, rfl⟩
  · intro hod
    rw [dispatch_dest, dispatch_isInplace, hod]
    exact ⟨rfl, rfl⟩

/-- C5 witness: `out/` configured flattens `in/a.png` to `out/a.png`;
no output directory keeps the source path. -/
theorem C5_witness :
    ((dispatch ⟨⟨[], "in"⟩, some ⟨[], "out"⟩, true, false, false, false⟩ oAll srcA).dest
        = RPath.join ⟨[], "out"⟩ "a.png"
      ∧ (dispatch ⟨⟨[], "in"⟩, some ⟨[], "out"⟩, true, false, false, false⟩ oAll srcA).isInplace
        = false)
    ∧ ((dispatch argsInPlace oAll srcA).dest = srcA
      ∧ (dispatch argsInPlace oAll srcA).isInplace = true) :=
  ⟨(C5_destination_planning ⟨⟨[], "in"⟩, some ⟨[], "out"⟩, true, false, false, false⟩
      oAll srcA).1 ⟨[], "out"⟩ rfl,
   (C5_destination_planning argsInPlace oAll srcA).2 rfl⟩

/-- C4: after a run whose setup phase succeeded, the exit code is 1 iff
the errored counter is positive and 0 when it is zero; and the final
summary is invariant under any permutation of the dispatch order, so the
property holds identically for sequential and parallel dispatch. -/
theorem C4_exit_code (a : Args) (outputExists mkdirOk : Bool)
    (es es2 : List (DirEntry × FileOracle))
    (hok : (!outputExists && !a.dryRun && !mkdirOk) = false)
    (hperm : es.Perm es2) :
    ((mainRun a true outputExists mkdirOk es).exitCode = 1
        ↔ 0 < (mainRun a true outputExists mkdirOk es).summary.errored)
    ∧ ((mainRun a true outputExists mkdirOk es).summary.errored = 0
        → (mainRun a true outputExists mkdirOk es).exitCode = 0)
    ∧ (mainRun a true outputExists mkdirOk es).summary
        = (mainRun a true outputExists mkdirOk es2).summary := by
  rw [mainRun_ok a outputExists mkdirOk es hok,
    mainRun_ok a outputExists mkdirOk es2 hok]
  have hp : (runSteps a es).Perm (runSteps a es2) := by
    unfold runSteps
    exact (hperm.filter _).map _
  refine ⟨?_, ?_, ?_⟩
  · dsimp only
    by_cases h : ((runSteps a es).map (fun st => st.errInc)).sum > 0
    · simp [h]
    · simp [h]
  · intro h0
    dsimp only at h0 ⊢
    simp [h0]
  · have e1 := (hp.map (fun st => st.procInc)).sum_eq
    have e2 := (hp.map (fun st => st.skipInc)).sum_eq
    have e3 := (hp.map (fun st => st.errInc)).sum_eq
    simp only [List.map_map] at e1 e2 e3
    dsimp only
    rw [RunSummary.mk.injEq]
    refine ⟨?_, ?_, ?_⟩ <;> simp [← List.map_map, e1, e2, e3]

/-- C4 witness: a clean one-file run exits 0; reversing a two-file list
leaves the summary unchanged. -/
theorem C4_witness :
    (mainRun argsInPlace true true true [(entryA, oAll)]).exitCode = 0
    ∧ (mainRun argsInPlace true true true [(entryA, oAll), (entryA, oCopyFail)]).summary
        = (mainRun argsInPlace true true true [(entryA, oCopyFail), (entryA, oAll)]).summary :=
  ⟨(C4_exit_code argsInPlace true true [(entryA, oAll)] [(entryA, oAll)]
      (by decide) (List.Perm.refl _)).2.1 (by decide),
   (C4_exit_code argsInPlace true true [(entryA, oAll), (entryA, oCopyFail)]
      [(entryA, oCopyFail), (entryA, oAll)] (by decide) (by constructor)).2.2⟩

theorem dispatch_ops_dry (a : Args) (o : FileOracle) (src : RPath)
    (hdry : a.dryRun = true) : (dispatch a o src).ops = [] := by
  unfold dispatch
  repeat' split
  all_goals (try simp_all)
  all_goals (repeat' split)
  all_goals (try simp_all)
  all_goals (repeat' split)
  all_goals (try simp_all)

/-- C2: a dry run attempts no mutating filesystem call at all (no
output-directory creation, no backup copy, no encode or recompression
write), and for every file it computes the same destination path, the
same backup path and the same in-place flag as the real run with the
same configuration. -/
theorem C2_dry_run_frame (a : Args) (inputExists outputExists mkdirOk : Bool)
    (es : List (DirEntry × FileOracle)) (o : FileOracle) (src : RPath)
    (hdry : a.dryRun = true) :
    (mainRun a inputExists outputExists mkdirOk es).ops = []
    ∧ (dispatch a o src).dest = (dispatch { a with dryRun := false } o src).dest
    ∧ (dispatch a o src).backupPath
        = (dispatch { a with dryRun := false } o src).backupPath
    ∧ (dispatch a o src).isInplace
        = (dispatch { a with dryRun := false } o src).isInplace := by
  refine ⟨?_, ?_, ?_, ?_⟩
  · unfold mainRun
    split
    · rfl
    · split
      · next h =>
        rw [hdry] at h
        simp at h
      · dsimp only
        have hmk : (!outputExists && !a.dryRun) = false := by
          rw [hdry]; simp
        rw [hmk]
        simp only [Bool.false_eq_true, if_false, List.nil_append]
        rw [List.flatten_eq_nil_iff]
        intro lns hlns
        rw [List.mem_map] at hlns
        obtain ⟨st, hst, hlns⟩ := hlns
        unfold runSteps at hst
        rw [List.mem_map] at hst
        obtain ⟨pr, _, hpr⟩ := hst
        rw [← hlns, ← hpr]
        exact dispatch_ops_dry a pr.2 pr.1.path hdry
  · rw [dispatch_dest, dispatch_dest]
  · rw [dispatch_backupPath, dispatch_backupPath]
  · rw [dispatch_isInplace, dispatch_isInplace]

/-- C2 witness: a one-candidate dry run leaves an empty mutation trace
and plans the same paths as the real run. -/
theorem C2_witness :
    (mainRun ⟨⟨[], "in"⟩, none, true, true, false, true⟩ true true true
        [(entryA, oAll)]).ops = []
    ∧ (dispatch ⟨⟨[], "in"⟩, none, true, true, false, true⟩ oAll srcA).dest
        = (dispatch { (⟨⟨[], "in"⟩, none, true, true, false, true⟩ : Args) with
            dryRun := false } oAll srcA).dest
    ∧ (dispatch ⟨⟨[], "in"⟩, none, true, true, false, true⟩ oAll srcA).backupPath
        = (dispatch { (⟨⟨[], "in"⟩, none, true, true, false, true⟩ : Args) with
            dryRun := false } oAll srcA).backupPath
    ∧ (dispatch ⟨⟨[], "in"⟩, none, true, true, false, true⟩ oAll srcA).isInplace
        = (dispatch { (⟨⟨[], "in"⟩, none, true, true, false, true⟩ : Args) with
            dryRun := false } oAll srcA).isInplace :=
  C2_dry_run_frame ⟨⟨[], "in"⟩, none, true, true, false, true⟩ true true true
    [(entryA, oAll)] oAll srcA rfl

theorem runSteps_cons (a : Args) (pr : DirEntry × FileOracle)
    (ys : List (DirEntry × FileOracle)) :
    runSteps a (pr :: ys) = runSteps a [pr] ++ runSteps a ys := by
  have h := runSteps_append a [pr] ys
  simpa using h

/-- C3: in-place with backup enabled and dry-run off, a failing backup
copy makes the file's outcome Errored, never calls the transcode step,
attempts exactly the one (failed) copy — whose target is the backup
path, not the source, so the source content is untouched — and leaves
every other file's dispatch unaffected. -/
theorem C3_backup_failure (a : Args) (o : FileOracle) (src : RPath) (e : String)
    (hout : a.output = none) (hb : a.backup = true) (hd : a.dryRun = false)
    (hext : extOf src.base = some e) (hcopy : o.copyOk = false) :
    (dispatch a o src).errInc = 1
    ∧ (dispatch a o src).procInc = 0
    ∧ (dispatch a o src).skipInc = 0
    ∧ (dispatch a o src).transcodeCalled = false
    ∧ (dispatch a o src).ops
        = [FsOp.copy src { src with base := setExtBase src.base ("bak." ++ e) }]
    ∧ (∀ op ∈ (dispatch a o src).ops, FsOp.target op ≠ src)
    ∧ (∀ xs ys, runSteps a (xs ++ (⟨src, true⟩, o) :: ys)
        = runSteps a xs ++ runSteps a [(⟨src, true⟩, o)] ++ runSteps a ys) := by
  have hdisp : dispatch a o src
      = { procInc := 0, skipInc := 0, errInc := 1,
          ops := [FsOp.copy src { src with base := setExtBase src.base ("bak." ++ e) }],
          lines := [], dest := src, isInplace := true,
          backupPath := some { src with base := setExtBase src.base ("bak." ++ e) },
          transcodeCalled := false, optStep := false } := by
    unfold dispatch
    simp [hout, hb, hd, hcopy, deriveBackupPath, hext]
  rw [hdisp]
  refine ⟨rfl, rfl, rfl, rfl, rfl, ?_, ?_⟩
  · intro op hop
    rw [List.mem_singleton] at hop
    subst hop
    intro htgt
    have hbase := congrArg RPath.base htgt
    exact setExtBase_bak_ne src.base e hext hbase
  · intro xs ys
    rw [runSteps_append, runSteps_cons, ← List.append_assoc]

/-- An in-place configuration with backup enabled. -/
def argsBackup : Args := ⟨⟨[], "in"⟩, none, true, false, false, true⟩

/-- C3 witness: a failed backup copy of `in/a.png` errors the file
without calling the transcode step. -/
theorem C3_witness :
    (dispatch argsBackup oCopyFail srcA).errInc = 1
    ∧ (dispatch argsBackup oCopyFail srcA).transcodeCalled = false :=
  ⟨(C3_backup_failure argsBackup oCopyFail srcA "png" rfl rfl rfl (by decide) rfl).1,
   (C3_backup_failure argsBackup oCopyFail srcA "png" rfl rfl rfl (by decide) rfl).2.2.2.1⟩

/-- C6: a backup path is non-`none` only when the backup flag is set and
the run is in-place; in that case it is the source path with a `bak`
segment inserted before the original extension; the derivation yields no
backup path for a name without a determinable extension; and every
candidate file has a determinable extension, so no dispatched file can
hit that case. -/
theorem C6_backup_path (a : Args) (o : FileOracle) (src : RPath) (e : String) :
    ((dispatch a o src).backupPath ≠ none → a.backup = true ∧ a.output = none)
    ∧ (a.backup = true → a.output = none → extOf src.base = some e →
        (dispatch a o src).backupPath
          = some { src with base := setExtBase src.base ("bak." ++ e) })
    ∧ (extOf src.base = none → deriveBackupPath src = none)
    ∧ (∀ d : DirEntry, isCandidate d = true → extOf d.path.base ≠ none) := by
  refine ⟨?_, ?_, ?_, ?_⟩
  · rw [dispatch_backupPath]
    intro h
    by_cases h1 : (a.output.isNone && a.backup) = true
    · rw [Bool.and_eq_true, Option.isNone_iff_eq_none] at h1
      exact ⟨h1.2, h1.1⟩
    · rw [Bool.not_eq_true] at h1
      rw [h1] at h
      simp at h
  · intro hb hout hext
    rw [dispatch_backupPath, hout, hb]
    simp [deriveBackupPath, hext]
  · intro h
    unfold deriveBackupPath
    rw [h]
  · intro d hc h
    unfold isCandidate at hc
    rw [Bool.and_eq_true] at hc
    have := hc.2
    rw [List.any_eq_true] at this
    obtain ⟨x, _, hx⟩ := this
    rw [h] at hx
    simp at hx

/-- C6 witness: `photo.png` gets backup path `photo.bak.png` when backup
is enabled in-place. -/
theorem C6_witness :
    (dispatch argsBackup oAll ⟨[], "photo.png"⟩).backupPath
      = some ⟨[], "photo.bak.png"⟩ := by
  have h := (C6_backup_path argsBackup oAll ⟨[], "photo.png"⟩ "png").2.1 rfl rfl (by decide)
  rw [h]
  decide

/-- C7: when the transcode reaches the post-encode stage (decode and
encode succeeded), the PNG recompression branch is entered iff the
optimize flag is set and the extension lowercases to `png`; with
optimize set on a non-PNG extension, any transcode attempts the encode
write only (no recompression write, the branch is never entered); and
the destination's extension always equals the dispatched source's
extension, so the `ext` compared is the destination extension. -/
theorem C7_optimize_gating (o : ImgOracle) (src dest : RPath) (ext : String)
    (opt : Bool) (hdec : o.decodeOk = true) (hsave : o.saveOk = true) :
    ((process_image o src dest ext opt).optStep = true
        ↔ (opt = true ∧ strToLower ext = "png"))
    ∧ (∀ o2 : ImgOracle, opt = true → strToLower ext ≠ "png" →
        (process_image o2 src dest ext opt).optStep = false
        ∧ (process_image o2 src dest ext opt).ops
            = (if o2.decodeOk = true then [FsOp.save dest] else []))
    ∧ (∀ (a : Args) (fo : FileOracle) (p : RPath),
        extOf (dispatch a fo p).dest.base = extOf p.base) := by
  refine ⟨?_, ?_, ?_⟩
  · unfold process_image
    repeat' split
    all_goals simp_all
  · intro o2 hopt hpng
    have hcond : (opt && (strToLower ext == "png")) = false := by
      rw [hopt]
      simp [hpng]
    unfold process_image
    rw [hcond]
    repeat' split
    all_goals simp_all
  · intro a fo p
    rw [dispatch_dest]
    cases ha : a.output with
    | none => rfl
    | some od => rfl

/-- C7 witness: with decode/encode succeeding, optimize on a PNG
extension enters the recompression branch, and on a JPG extension it
does not. -/
theorem C7_witness :
    (process_image ⟨true, true, true, true, true⟩ srcA srcA "png" true).optStep = true
    ∧ (process_image ⟨true, true, true, true, true⟩ srcA srcA "jpg" true).optStep = false :=
  ⟨(C7_optimize_gating ⟨true, true, true, true, true⟩ srcA srcA "png" true rfl rfl).1.mpr
      ⟨rfl, by decide⟩,
   ((C7_optimize_gating ⟨true, true, true, true, true⟩ srcA srcA "jpg" true rfl rfl).2.1
      ⟨true, true, true, true, true⟩ rfl (by decide)).1⟩

/-- Modelled from the spec: the summary-line format the specification
text prescribes, `processed=<n> skipped=<n> errored=<n>` (§6), for
comparison with the program's actual `summaryLine`. -/
def specSummaryForm (p s e : Nat) : String :=
  "processed=" ++ toString p ++ " skipped=" ++ toString s
    ++ " errored=" ++ toString e

/-- A dry-run in-place configuration used for the C8 run. -/
def argsDry : Args := ⟨⟨[], "in"⟩, none, true, true, false, false⟩

/-- A concrete one-candidate run for C8. -/
def runC8 : RunOut := mainRun argsDry true true true [(entryA, oAll)]

/-- C8 counterexample: a run that dispatches one file never prints a
line of the form `processed=<n> skipped=<n> errored=<n>`; its trailing
line is `\nSummary: 1 processed, 0 skipped, 0 errors` instead. -/
theorem C8_counterexample :
    ([(entryA, oAll)].filter (fun pr => isCandidate pr.1)).length = 1
    ∧ runC8.summary = ⟨1, 0, 0⟩
    ∧ specSummaryForm 1 0 0 ∉ runC8.lines
    ∧ runC8.lines.getLast? ≠ some (specSummaryForm 1 0 0)
    ∧ runC8.lines.getLast? = some (summaryLine 1 0 0) := by decide

/-- C8 amended: every run whose setup phase succeeded ends its stdout
with exactly one trailing summary line reporting the three final counter
values, but in the format `\nSummary: <p> processed, <s> skipped,
<e> errors` rather than the `processed=<n> skipped=<n> errored=<n>`
form the claim states. -/
theorem C8_trailing_summary (a : Args) (outputExists mkdirOk : Bool)
    (es : List (DirEntry × FileOracle))
    (hok : (!outputExists && !a.dryRun && !mkdirOk) = false) :
    ∃ body,
      (mainRun a true outputExists mkdirOk es).lines
        = body
          ++ [summaryLine (mainRun a true outputExists mkdirOk es).summary.processed
                (mainRun a true outputExists mkdirOk es).summary.skipped
                (mainRun a true outputExists mkdirOk es).summary.errored]
      ∧ (∀ l ∈ body, isSummaryLine l = false)
      ∧ isSummaryLine (summaryLine (mainRun a true outputExists mkdirOk es).summary.processed
          (mainRun a true outputExists mkdirOk es).summary.skipped
          (mainRun a true outputExists mkdirOk es).summary.errored) = true := by
  rw [mainRun_ok a outputExists mkdirOk es hok]
  dsimp only
  refine ⟨((runSteps a es).map (fun st => st.lines)).flatten, rfl, ?_,
    isSummaryLine_summaryLine _ _ _⟩
  intro l hl
  rw [List.mem_flatten] at hl
  obtain ⟨lns, hlns, hm⟩ := hl
  rw [List.mem_map] at hlns
  obtain ⟨st, hst, hlns⟩ := hlns
  unfold runSteps at hst
  rw [List.mem_map] at hst
  obtain ⟨pr, _, hpr⟩ := hst
  rw [← hlns] at hm
  rw [← hpr] at hm
  exact dispatch_lines_not_summary a pr.2 pr.1.path l hm

/-- C8 witness: the amended property at the concrete C8 run. -/
theorem C8_witness :
    ∃ body,
      (mainRun argsDry true true true [(entryA, oAll)]).lines
        = body
          ++ [summaryLine (mainRun argsDry true true true [(entryA, oAll)]).summary.processed
                (mainRun argsDry true true true [(entryA, oAll)]).summary.skipped
                (mainRun argsDry true true true [(entryA, oAll)]).summary.errored]
      ∧ (∀ l ∈ body, isSummaryLine l = false)
      ∧ isSummaryLine (summaryLine (mainRun argsDry true true true [(entryA, oAll)]).summary.processed
          (mainRun argsDry true true true [(entryA, oAll)]).summary.skipped
          (mainRun argsDry true true true [(entryA, oAll)]).summary.errored) = true :=
  C8_trailing_summary argsDry true true [(entryA, oAll)] (by decide)

/-- C9: candidacy is an exact byte comparison against
`{png, jpg, jpeg}`: an entry whose extension only differs in case is not
a candidate, and a run over a traversal containing such an entry is
identical — counters, output, mutations and exit code — to the run
without it. -/
theorem C9_case_sensitive_candidacy (d : DirEntry) (x : String)
    (hx : extOf d.path.base = some x)
    (_hlow : strToLower x ∈ extensionsList) (hnot : x ∉ extensionsList)
    (a : Args) (outputExists mkdirOk : Bool) (o : FileOracle)
    (xs ys : List (DirEntry × FileOracle)) :
    isCandidate d = false
    ∧ mainRun a true outputExists mkdirOk (xs ++ (d, o) :: ys)
        = mainRun a true outputExists mkdirOk (xs ++ ys) := by
  have hc : isCandidate d = false := by
    unfold isCandidate extensionsList
    simp only [extensionsList, List.mem_cons, List.mem_singleton] at hnot
    push_neg at hnot
    obtain ⟨h1, h2, h3⟩ := hnot
    simp [hx, h1, h2, h3]
  refine ⟨hc, ?_⟩
  have hfil : (xs ++ (d, o) :: ys).filter (fun pr => isCandidate pr.1)
      = (xs ++ ys).filter (fun pr => isCandidate pr.1) := by
    rw [List.filter_append, List.filter_append, List.filter_cons]
    simp [hc]
  have hrs : runSteps a (xs ++ (d, o) :: ys) = runSteps a (xs ++ ys) := by
    unfold runSteps
    rw [hfil]
  unfold mainRun
  rw [hrs]

/-- C9 witness: `in/c.JPG` is excluded and changes nothing about the
run over `[in/a.png]`. -/
theorem C9_witness :
    isCandidate ⟨⟨["in"], "c.JPG"⟩, true⟩ = false
    ∧ mainRun argsInPlace true true true
        [(entryA, oAll), (⟨⟨["in"], "c.JPG"⟩, true⟩, oAll)]
        = mainRun argsInPlace true true true [(entryA, oAll)] :=
  C9_case_sensitive_candidacy ⟨⟨["in"], "c.JPG"⟩, true⟩ "JPG" (by decide)
    (by decide) (by decide) argsInPlace true true oAll [(entryA, oAll)] []
